import Mathlib

/-!
Verification of the git-control-center core against its specification.

The TypeScript sources are embedded shallowly: strings are `List Char`,
the JavaScript string operations used by the code (`split`, `trim`,
`startsWith`, `replace`, `includes`, `toLowerCase`, and the digit-capturing
regular expressions) are modelled by the executable functions below, and the
stateful command handlers are modelled as pure functions from an environment
(operator choices, oracle statuses, clock values) to the ordered list of
events they produce.
-/

set_option maxHeartbeats 1000000
set_option maxRecDepth 16384

namespace GitCC

/-- The characters of a string literal: all parsers work on `List Char`. -/
def cs (s : String) : List Char := s.data

/-- JS `a.startsWith(b)`: does the first list start with the second? -/
def strStarts : List Char → List Char → Bool
  | _, [] => true
  | [], _ :: _ => false
  | c :: s, p :: ps => c == p && strStarts s ps

/-- JS `a.includes(b)`: does `pat` occur contiguously inside `s`? -/
def containsSub : List Char → List Char → Bool
  | [], pat => pat.isEmpty
  | c :: t, pat => strStarts (c :: t) pat || containsSub t pat

/-- JS `s.replace(pat, '')` for a plain-string pattern: remove the first
occurrence of `pat`; if `pat` does not occur the string is unchanged. -/
def removeFirst : List Char → List Char → List Char
  | [], _ => []
  | c :: t, pat =>
    if strStarts (c :: t) pat then List.drop pat.length (c :: t)
    else c :: removeFirst t pat

/-- JS whitespace test for the characters `trim` strips (the inputs here
only ever carry spaces, tabs, CR and LF). -/
def isWsChar (c : Char) : Bool := c == ' ' || c == '\t' || c == '\n' || c == '\r'

/-- JS `s.trim()`. -/
def trimChars (l : List Char) : List Char :=
  ((l.dropWhile isWsChar).reverse.dropWhile isWsChar).reverse

/-- JS `s.split(sep)` for a single-character separator: splits at every
occurrence, keeping empty segments. -/
def splitCh (sep : Char) : List Char → List (List Char)
  | [] => [[]]
  | c :: rest =>
    match splitCh sep rest with
    | [] => [[]]
    | h :: t => if c == sep then [] :: h :: t else (c :: h) :: t

/-- Remove one trailing `'\r'` if present. -/
def dropCR (l : List Char) : List Char :=
  match l.getLast? with
  | some c => if c == '\r' then l.dropLast else l
  | none => l

/-- JS `s.split(/\r?\n/)`: split at `'\n'`, then strip one `'\r'` left at
the end of each piece by a preceding `"\r\n"`. -/
def splitLines (l : List Char) : List (List Char) :=
  (splitCh '\n' l).map dropCR

/-- JS `parts.join(' ')`. -/
def joinSp : List (List Char) → List Char
  | [] => []
  | [x] => x
  | x :: y :: t => x ++ ' ' :: joinSp (y :: t)

/-- Value of a digit string (the capture group of `(\d+)`). -/
def digitsVal (l : List Char) : Nat :=
  l.foldl (fun n d => n * 10 + (d.toNat - 48)) 0

/-- JS `s.match(new RegExp(marker + "(\\d+)"))?.[1]` for a plain-text
`marker`: scan left to right for the first position where `marker` occurs
immediately followed by at least one digit, and return the value of the
maximal digit run there. -/
def capAfter (marker : List Char) : List Char → Option Nat
  | [] => none
  | c :: rest =>
    if strStarts (c :: rest) marker then
      let ds := (List.drop marker.length (c :: rest)).takeWhile (fun d => d.isDigit)
      if ds.isEmpty then capAfter marker rest else some (digitsVal ds)
    else capAfter marker rest

/-- JS `s.toLowerCase()` (ASCII range, which is all the classifier uses). -/
def lowerStr (l : List Char) : List Char := l.map Char.toLower

/-! ## Domain records (src/types/git.ts) -/

/-- The `section` tag of a `FileChange`. -/
inductive FcSection
  | staged
  | unstaged
  | untracked
  | conflicts
deriving DecidableEq, Repr

/-- `FileChange` from src/types/git.ts: path, section, two status chars. -/
structure FileChange where
  path : List Char
  sec : FcSection
  x : Char
  y : Char
deriving DecidableEq, Repr

/-- `StatusInfo` from src/types/git.ts. -/
structure StatusInfo where
  branch : List Char
  detachedHead : Bool
  upstream : Option (List Char)
  ahead : Nat
  behind : Nat
  staged : List FileChange
  unstaged : List FileChange
  untracked : List FileChange
  conflicts : List FileChange
deriving DecidableEq, Repr

/-- The `kind` of a `BranchInfo`. -/
inductive BranchKind
  | local
  | remote
deriving DecidableEq, Repr

/-- `BranchInfo` from src/types/git.ts. -/
structure BranchInfo where
  name : List Char
  shortName : List Char
  kind : BranchKind
  remoteName : Option (List Char)
  isCurrent : Bool
  upstream : Option (List Char)
  ahead : Nat
  behind : Nat
  merged : Bool
  stale : Bool
  lastCommitEpochSeconds : Option Nat
deriving DecidableEq, Repr

/-- `WorktreeInfo` from src/types/git.ts. -/
structure WorktreeInfo where
  path : List Char
  head : List Char
  branch : Option (List Char)
  detached : Bool
  bare : Bool
  prunable : Option (List Char)
deriving DecidableEq, Repr

/-! ## Parsing engine (src/domain/parsers.ts) -/

/-- `parseAheadBehind` (parsers.ts lines 3-7): regex captures of
`/ahead (\d+)/` and `/behind (\d+)/` on the tracking annotation,
defaulting to 0 (`Number('0')`) when the pattern does not match. -/
def parseAheadBehind (metadata : List Char) : Nat × Nat :=
  ((capAfter (cs "ahead ") metadata).getD 0, (capAfter (cs "behind ") metadata).getD 0)

/-- Is a status line a file record (`'1 '` or `'2 '` porcelain line)? -/
def isFileRec (l : List Char) : Bool := strStarts l (cs "1 ") || strStarts l (cs "2 ")

/-- The `xy` code of a file record: `parts[1] ?? '..'` after `split(' ')`. -/
def xyOf (l : List Char) : List Char := ((splitCh ' ' l).get? 1).getD (cs "..")

/-- First status character: `xy[0] ?? '.'`. -/
def xOf (l : List Char) : Char := ((xyOf l).get? 0).getD '.'

/-- Second status character: `xy[1] ?? '.'`. -/
def yOf (l : List Char) : Char := ((xyOf l).get? 1).getD '.'

/-- The conflict test of parsers.ts line 55: a `U` on either side or the
simultaneous add/add or delete/delete pair. -/
def conflictPat (x y : Char) : Bool :=
  x == 'U' || y == 'U' || (x == 'A' && y == 'A') || (x == 'D' && y == 'D')

/-- The path of a `'1 '`/`'2 '` record: `parts.slice(8).join(' ')`. -/
def recPath (l : List Char) : List Char := joinSp ((splitCh ' ' l).drop 8)

/-- Does a file record contribute an entry to the staged section: a
non-conflict record with a non-empty first status character. -/
def stagedCond (l : List Char) : Bool :=
  isFileRec l && !conflictPat (xOf l) (yOf l) && (xOf l != '.')

/-- Does a file record contribute an entry to the unstaged section: a
non-conflict record with a non-empty second status character. -/
def unstagedCond (l : List Char) : Bool :=
  isFileRec l && !conflictPat (xOf l) (yOf l) && (yOf l != '.')

/-- One iteration of the `for (const line of lines)` loop of
`parseStatusPorcelainV2` (parsers.ts lines 22-90), acting on the
accumulated `StatusInfo`. -/
def stepStatus (s : StatusInfo) (line : List Char) : StatusInfo :=
  if strStarts line (cs "# branch.head ") then
    let head := trimChars (removeFirst line (cs "# branch.head "))
    let det := head == cs "(detached)"
    { s with branch := if det then cs "HEAD (detached)" else head, detachedHead := det }
  else if strStarts line (cs "# branch.upstream ") then
    { s with upstream := some (trimChars (removeFirst line (cs "# branch.upstream "))) }
  else if strStarts line (cs "# branch.ab ") then
    let frag := trimChars (removeFirst line (cs "# branch.ab "))
    { s with ahead := (capAfter (cs "+") frag).getD 0,
             behind := (capAfter (cs "-") frag).getD 0 }
  else if isFileRec line then
    if conflictPat (xOf line) (yOf line) then
      { s with conflicts := s.conflicts ++ [⟨recPath line, .conflicts, xOf line, yOf line⟩] }
    else
      let s1 :=
        if xOf line != '.' then
          { s with staged := s.staged ++ [⟨recPath line, .staged, xOf line, yOf line⟩] }
        else s
      if yOf line != '.' then
        { s1 with unstaged := s1.unstaged ++ [⟨recPath line, .unstaged, xOf line, yOf line⟩] }
      else s1
  else if strStarts line (cs "u ") then
    { s with conflicts :=
        s.conflicts ++ [⟨joinSp ((splitCh ' ' line).drop 10), .conflicts, 'U', 'U'⟩] }
  else if strStarts line (cs "? ") then
    { s with untracked :=
        s.untracked ++ [⟨trimChars (removeFirst line (cs "? ")), .untracked, '?', '?'⟩] }
  else s

/-- The initial accumulator of `parseStatusPorcelainV2`: sentinel branch
`'HEAD'`, zero counts, empty sections. -/
def statusInit : StatusInfo := ⟨cs "HEAD", false, none, 0, 0, [], [], [], []⟩

/-- The non-blank lines a status input is reduced to
(`split(/\r?\n/).filter(line => line.trim().length > 0)`). -/
def statusLines (output : List Char) : List (List Char) :=
  (splitLines output).filter (fun l => !(trimChars l).isEmpty)

/-- Loop part of `parseStatusPorcelainV2` over an explicit line list. -/
def parseStatusFromLines (lines : List (List Char)) : StatusInfo :=
  lines.foldl stepStatus statusInit

/-- `parseStatusPorcelainV2` (parsers.ts lines 9-93). -/
def parseStatusPorcelainV2 (output : List Char) : StatusInfo :=
  parseStatusFromLines (statusLines output)

/-- The tab-separated field `i` of a branch-ref row (`line.split('\t')`),
with JS `undefined` for a missing field collapsed, as the code does with
`?? ''`/falsiness checks, to the empty string. -/
def tabField (line : List Char) (i : Nat) : List Char :=
  ((splitCh '\t' line).get? i).getD []

/-- JS `Number(raw)` restricted to the values that can make
`Number.isFinite(e) && e > 0` hold on a committer epoch: whitespace-trimmed
digit strings (`Number('') = 0`; anything non-numeric is `NaN`, and
fractional or negative epochs never pass the `> 0` integer filter used
below). -/
def jsEpoch (raw : List Char) : Option Nat :=
  let t := trimChars raw
  if t.isEmpty then some 0
  else if t.all (fun c => c.isDigit) then some (digitsVal t) else none

/-- One row of `parseBranchRefs` (parsers.ts lines 100-132), `none` when
the row is skipped (`if (!refName) continue`). -/
def parseBranchLine (currentBranchName : Option (List Char)) (line : List Char) :
    Option BranchInfo :=
  let refName := tabField line 0
  if refName.isEmpty then none
  else
    let isRemote := strStarts refName (cs "refs/remotes/")
    let kind : BranchKind := if isRemote then .remote else .local
    let short := trimChars (removeFirst (removeFirst refName (cs "refs/heads/")) (cs "refs/remotes/"))
    let remoteName : Option (List Char) :=
      if isRemote then some (((splitCh '/' short).get? 0).getD []) else none
    let upstreamRaw := tabField line 1
    let upstream : Option (List Char) :=
      if !upstreamRaw.isEmpty && upstreamRaw != cs "-" then some upstreamRaw else none
    let ab := parseAheadBehind (tabField line 2)
    let isCurrent := kind == .local && currentBranchName == some short
    let merged := ab.1 == 0 && ab.2 == 0 && upstream.isSome
    let stale := kind == .local && upstream.isNone
    let lastCommit : Option Nat :=
      match jsEpoch (tabField line 3) with
      | some e => if e > 0 then some e else none
      | none => none
    some ⟨refName, short, kind, remoteName, isCurrent, upstream, ab.1, ab.2, merged, stale,
          lastCommit⟩

/-- The `.filter(Boolean)` line list used by `parseBranchRefs` (only fully
empty strings are falsy and dropped). -/
def branchLines (output : List Char) : List (List Char) :=
  (splitLines output).filter (fun l => !l.isEmpty)

/-- `parseBranchRefs` (parsers.ts lines 95-136). -/
def parseBranchRefs (output : List Char) (currentBranchName : Option (List Char)) :
    List BranchInfo :=
  (branchLines output).filterMap (parseBranchLine currentBranchName)

/-! ### Worktree parser -/

/-- The in-progress block of `parseWorktrees`: the mutable
`current: Partial<WorktreeInfo>`. -/
structure WtAcc where
  path : Option (List Char)
  head : Option (List Char)
  branch : Option (List Char)
  detached : Bool
  bare : Bool
  prunable : Option (List Char)
deriving DecidableEq, Repr

/-- The empty `current = {}` accumulator. -/
def wtEmpty : WtAcc := ⟨none, none, none, false, false, none⟩

/-- `pushCurrent` (parsers.ts lines 200-213): emit a record only when both
path and head are present; note the accumulator is NOT reset when the
emission is skipped. -/
def wtPush (st : List WorktreeInfo × WtAcc) : List WorktreeInfo × WtAcc :=
  match st.2.path, st.2.head with
  | some p, some h =>
    (st.1 ++ [⟨p, h, st.2.branch, st.2.detached, st.2.bare, st.2.prunable⟩], wtEmpty)
  | _, _ => st

/-- One iteration of the line loop of `parseWorktrees` (parsers.ts
lines 215-233). -/
def wtStep (st : List WorktreeInfo × WtAcc) (line : List Char) :
    List WorktreeInfo × WtAcc :=
  if (trimChars line).isEmpty then wtPush st
  else if strStarts line (cs "worktree ") then
    (st.1, { st.2 with path := some (trimChars (removeFirst line (cs "worktree "))) })
  else if strStarts line (cs "HEAD ") then
    (st.1, { st.2 with head := some (trimChars (removeFirst line (cs "HEAD "))) })
  else if strStarts line (cs "branch ") then
    (st.1, { st.2 with branch := some (trimChars (removeFirst line (cs "branch refs/heads/"))) })
  else if line == cs "detached" then (st.1, { st.2 with detached := true })
  else if line == cs "bare" then (st.1, { st.2 with bare := true })
  else if strStarts line (cs "prunable ") then
    (st.1, { st.2 with prunable := some (trimChars (removeFirst line (cs "prunable "))) })
  else st

/-- `parseWorktrees` (parsers.ts lines 195-236); the final `pushCurrent()`
flushes at end of input. -/
def parseWorktrees (output : List Char) : List WorktreeInfo :=
  (wtPush ((splitLines output).foldl wtStep ([], wtEmpty))).1

/-! ## Error classifier (src/services/errorReporter.ts) -/

/-- The normalized match source of `ErrorReporter.suggestAction`:
`` `${message}\n${stderr ?? ''}`.toLowerCase() ``. -/
def classifierSource (message : List Char) (stderr : Option (List Char)) : List Char :=
  lowerStr (message ++ '\n' :: stderr.getD [])

/-- `ErrorReporter.suggestAction` (errorReporter.ts lines 33-62): the
message and stderr are joined by `'\n'`, case-folded, and matched
first-match-wins against the fixed ordered table. -/
def suggestAction (message : List Char) (stderr : Option (List Char)) :
    List Char × List (List Char) :=
  let source := classifierSource message stderr
  if containsSub source (cs "not a git repository") then
    (cs "Selected folder is not a Git repository.", [])
  else if containsSub source (cs "no upstream configured") then
    (cs "No upstream configured for this branch.", [cs "Set Upstream"])
  else if containsSub source (cs "could not read from remote repository")
      || containsSub source (cs "authentication failed") then
    (cs "Authentication failed. Check credentials and use VS Code Git auth.", [])
  else if containsSub source (cs "pathspec") then
    (cs "Branch or file was not found. Refresh and retry.", [])
  else if containsSub source (cs "nothing to commit") then
    (cs "Nothing to commit. Stage changes first.", [])
  else if containsSub source (cs "merge conflict") then
    (cs "Repository has conflicts. Resolve conflicts before continuing.", [])
  else if containsSub source (cs "would be overwritten by checkout") then
    (cs "Checkout would overwrite local changes.", [cs "Smart Checkout"])
  else if containsSub source (cs "non-fast-forward") then
    (cs "Push rejected (non-fast-forward).", [cs "Pull then Push", cs "Force with Lease"])
  else (message, [])

/-! ## GitService cache and invalidation (src/services/gitService.ts) -/

/-- One entry of the `Map<string, { at: number; value: unknown }>` cache
(the `at` field is spelt `storedAt` since `at` is reserved in Lean). -/
structure CacheEntry (α : Type) where
  storedAt : Nat
  value : α
deriving DecidableEq, Repr

/-- The cache itself, as an association list keyed by the cache key. -/
abbrev Cache (α : Type) : Type := List (List Char × CacheEntry α)

/-- The `writeCommands` set of `invalidateShallowCache` (gitService.ts
lines 385-399). -/
def writeCommands : List (List Char) :=
  [cs "checkout", cs "commit", cs "merge", cs "rebase", cs "pull", cs "push", cs "branch",
   cs "stash", cs "restore", cs "add", cs "clean", cs "fetch", cs "worktree"]

/-- `writeCommands.has(args[0] ?? '')`: is this argument vector a mutating
git command? -/
def isMutating (args : List (List Char)) : Bool :=
  writeCommands.contains ((args.get? 0).getD [])

/-- `invalidateShallowCache` (gitService.ts lines 384-408): for a mutating
command, delete every cache key that contains the repository working
directory (`key.includes(cwd)`); otherwise leave the cache untouched. -/
def invalidateShallowCache (cwd : List Char) (args : List (List Char)) (cache : Cache α) :
    Cache α :=
  if isMutating args then cache.filter (fun e => !containsSub e.1 cwd) else cache

/-- Observable events of one `runGit` call: the cache invalidation and the
subprocess execution. -/
inductive GsEvent
  | invalidate (cwd : List Char)
  | exec (cwd : List Char) (args : List (List Char))
deriving DecidableEq, Repr

/-- `runGit` (gitService.ts lines 354-358) as a cache transformer plus its
ordered event trace: it first calls `invalidateShallowCache` (which removes
entries only for mutating commands) and then spawns the subprocess. -/
def runGitModel (cwd : List Char) (args : List (List Char)) (cache : Cache α) :
    Cache α × List GsEvent :=
  (invalidateShallowCache cwd args cache,
   (if isMutating args then [GsEvent.invalidate cwd] else []) ++ [GsEvent.exec cwd args])

/-- `getCached` (gitService.ts lines 372-382): a hit only when the key is
present and not older than `ttlMs`; a stale entry is deleted and reported
as a miss. -/
def getCached (key : List Char) (ttlMs now : Nat) (cache : Cache α) :
    Option α × Cache α :=
  match cache.find? (fun e => e.1 == key) with
  | none => (none, cache)
  | some e =>
    if now - e.2.storedAt > ttlMs then (none, cache.filter (fun e2 => e2.1 != key))
    else (some e.2.value, cache)

/-- Does some `invalidate` event occur strictly after some `exec` event in
a trace? This is the order the specification's "invalidated immediately
after the command completes" asserts. -/
def invAfterExec : List GsEvent → Bool
  | [] => false
  | GsEvent.exec _ _ :: t => t.any (fun e => match e with | GsEvent.invalidate _ => true | _ => false) || invAfterExec t
  | _ :: t => invAfterExec t

/-! ## Branch memory (src/services/branchMemoryService.ts) -/

/-- `BranchMemoryService.recordCheckout` (branchMemoryService.ts line 28)
acting on the stored recents list:
`[branchName, ...recents.filter(n => n !== branchName)].slice(0, 10)`. -/
def recordCheckout (recents : List (List Char)) (branchName : List Char) :
    List (List Char) :=
  (branchName :: recents.filter (fun n => n != branchName)).take 10

/-! ## Repository registry (src/services/repositoryManager.ts) -/

/-- The slice of `RepositoryInfo` the registry claims need: the identity. -/
structure RepositoryInfo where
  id : List Char
deriving DecidableEq, Repr

/-- `RepositoryManager.getActiveRepository` (repositoryManager.ts
lines 20-25): with no active id the first repository; otherwise the
repository with the active id, falling back to the first. -/
def getActiveRepository (activeRepositoryId : Option (List Char))
    (repositories : List RepositoryInfo) : Option RepositoryInfo :=
  match activeRepositoryId with
  | none => repositories.head?
  | some id =>
    match repositories.find? (fun repo => repo.id == id) with
    | some repo => some repo
    | none => repositories.head?

/-! ## GitService argument vectors

The workflows drive git exclusively through `GitService` methods; each
method builds one argument vector (gitService.ts). -/

/-- `GitService.fetch`: `['fetch', '--prune', ...(remote ? [remote] : [])]`. -/
def fetchArgs (remote : Option (List Char)) : List (List Char) :=
  [cs "fetch", cs "--prune"] ++ (match remote with | some r => [r] | none => [])

/-- `GitService.getStatus`: `['status', '--porcelain=v2', '-b']`. -/
def statusArgs : List (List Char) := [cs "status", cs "--porcelain=v2", cs "-b"]

/-- `GitService.rebaseCurrentOnto`: `['rebase', branchName]`. -/
def rebaseArgs (branchName : List Char) : List (List Char) := [cs "rebase", branchName]

/-- `GitService.mergeIntoCurrent`: `['merge', '--no-ff', branchName]`. -/
def mergeArgs (branchName : List Char) : List (List Char) :=
  [cs "merge", cs "--no-ff", branchName]

/-- `GitService.pull`: `['pull']` plus `--rebase` and the remote. -/
def pullArgs (rebase : Bool) (remote : Option (List Char)) : List (List Char) :=
  [cs "pull"] ++ (if rebase then [cs "--rebase"] else [])
    ++ (match remote with | some r => [r] | none => [])

/-- `GitService.push` without force: `['push', ...remote]`. -/
def pushArgs (remote : Option (List Char)) : List (List Char) :=
  [cs "push"] ++ (match remote with | some r => [r] | none => [])

/-- `GitService.stash`: `['stash', 'push']` plus `--keep-index` and the
message. -/
def stashPushArgs (message : Option (List Char)) (keepIndex : Bool) : List (List Char) :=
  [cs "stash", cs "push"] ++ (if keepIndex then [cs "--keep-index"] else [])
    ++ (match message with
        | some m => if m.isEmpty then [] else [cs "-m", m]
        | none => [])

/-- `GitService.checkoutBranch`: `['checkout', branchName]`. -/
def checkoutArgs (branchName : List Char) : List (List Char) := [cs "checkout", branchName]

/-- `GitService.stashApply`: `['stash', pop ? 'pop' : 'apply', ref]`. -/
def stashApplyArgs (ref : List Char) (pop : Bool) : List (List Char) :=
  [cs "stash", if pop then cs "pop" else cs "apply", ref]

/-! ## Synchronize workflow (registerCommands.ts, `gitcc.sync`, lines 157-208)

The handler is modelled from the line after the `withProgress` callback is
entered. The environment carries what the asynchronous collaborators
answer: the two statuses returned by the two `getStatus` calls and the
operator's quick-pick choice at the divergence prompt. The result is the
ordered list of git argument vectors issued, or the thrown error
message. -/

/-- Inputs of one `gitcc.sync` run. -/
structure SyncEnv where
  remote : List Char
  pullRebase : Bool
  status1 : StatusInfo
  status2 : StatusInfo
  choice : Option (List Char)
deriving Repr

/-- The trailing `status = getStatus(); if (ahead > 0) push` phase shared
by every non-cancelled path (registerCommands.ts lines 197-201). -/
def syncTail (env : SyncEnv) : List (List (List Char)) :=
  [statusArgs] ++ (if env.status2.ahead > 0 then [pushArgs (some env.remote)] else [])

/-- The `gitcc.sync` handler body: fetch, classify on the recomputed
status, optionally rebase/merge/pull, then push if still ahead.
`Except.error` models the `throw new Error('no upstream configured')`. -/
def syncRun (env : SyncEnv) : Except (List Char) (List (List (List Char))) :=
  let t0 := [fetchArgs (some env.remote), statusArgs]
  if env.status1.ahead > 0 && env.status1.behind > 0 then
    if env.choice == some (cs "Cancel") || env.choice == none then Except.ok t0
    else if strStarts ((env.choice).getD []) (cs "Rebase") then
      match env.status1.upstream with
      | none => Except.error (cs "no upstream configured")
      | some u => Except.ok (t0 ++ [rebaseArgs u] ++ syncTail env)
    else
      match env.status1.upstream with
      | none => Except.error (cs "no upstream configured")
      | some u => Except.ok (t0 ++ [mergeArgs u] ++ syncTail env)
  else if env.status1.behind > 0 then
    Except.ok (t0 ++ [pullArgs env.pullRebase (some env.remote)] ++ syncTail env)
  else Except.ok (t0 ++ syncTail env)

/-! ## Smart Checkout workflow (registerCommands.ts, `gitcc.smartCheckout`,
lines 361-428)

Modelled from the point where the target branch is already resolved (the
handler was invoked with a `branchArg`). The environment again carries the
collaborators' answers; the result is the ordered event list plus the
final branch-memory recents list. -/

/-- The configured `smartCheckout.defaultStrategy` (configService.ts). -/
inductive CcStrategy
  | ask
  | autoStash
  | cancelStrategy
deriving DecidableEq, Repr

/-- The operator's answer to the dirty-tree quick pick. -/
inductive CcAction
  | auto
  | commit
  | cancel
deriving DecidableEq, Repr

/-- Observable events of one `gitcc.smartCheckout` run. -/
inductive CcEvent
  | git (args : List (List Char))
  | errorMsg (text : List Char)
  | strategyPrompt
  | redirectCommit
  | record (branchName : List Char)
  | offerRestore
deriving DecidableEq, Repr

/-- Inputs of one `gitcc.smartCheckout` run. -/
structure CheckoutEnv where
  target : List Char
  status : StatusInfo
  strategy : CcStrategy
  pick : Option CcAction
  restoreChoice : Option (List Char)
  timestamp : List Char
  recents0 : List (List Char)
deriving Repr

/-- The auto-stash message of registerCommands.ts line 407:
`` `auto: ${timestamp} ${status.branch}` ``. -/
def autoStashMessage (timestamp branch : List Char) : List Char :=
  cs "auto: " ++ timestamp ++ ' ' :: branch

/-- The `gitcc.smartCheckout` handler body (conflict guard, dirty check,
strategy resolution, optional auto-stash, checkout, branch-memory record,
optional stash restore), returning the event list and the final recents. -/
def smartCheckoutRun (env : CheckoutEnv) : List CcEvent × List (List Char) :=
  let t0 := [CcEvent.git statusArgs]
  if env.status.conflicts.length > 0 then
    (t0 ++ [CcEvent.errorMsg (cs "Resolve conflicts before switching branches.")], env.recents0)
  else
    let dirty := env.status.staged.length + env.status.unstaged.length
      + env.status.untracked.length + env.status.conflicts.length > 0
    if dirty then
      let promptEvents :=
        match env.strategy with
        | .autoStash => []
        | .cancelStrategy => []
        | .ask => [CcEvent.strategyPrompt]
      let action : CcAction :=
        match env.strategy with
        | .autoStash => .auto
        | .cancelStrategy => .cancel
        | .ask => env.pick.getD .cancel
      match action with
      | .commit => (t0 ++ promptEvents ++ [CcEvent.redirectCommit], env.recents0)
      | .cancel => (t0 ++ promptEvents, env.recents0)
      | .auto =>
        let msg := autoStashMessage env.timestamp env.status.branch
        let restoreEvents :=
          [CcEvent.offerRestore] ++
          (if env.restoreChoice == some (cs "Apply") then
            [CcEvent.git (stashApplyArgs (cs "stash@\x7b0\x7d") false)]
          else if env.restoreChoice == some (cs "Pop") then
            [CcEvent.git (stashApplyArgs (cs "stash@\x7b0\x7d") true)]
          else [])
        (t0 ++ promptEvents
          ++ [CcEvent.git (stashPushArgs (some msg) false),
              CcEvent.git (checkoutArgs env.target),
              CcEvent.record env.target]
          ++ restoreEvents,
         recordCheckout env.recents0 env.target)
    else
      (t0 ++ [CcEvent.git (checkoutArgs env.target), CcEvent.record env.target],
       recordCheckout env.recents0 env.target)

/-- A concrete run input whose working tree is dirty solely through an
unresolved conflict, with the auto-stash strategy configured. -/
def conflictedCheckoutEnv : CheckoutEnv :=
  ⟨cs "feature/x",
   ⟨cs "main", false, none, 0, 0, [], [], [], [⟨cs "a.ts", FcSection.conflicts, 'U', 'U'⟩]⟩,
   CcStrategy.autoStash, none, none, cs "2026-10-11T08-00-00.000Z", []⟩

/-- A concrete run input with one staged file, no conflicts, and the
auto-stash strategy configured. -/
def dirtyCheckoutEnv : CheckoutEnv :=
  ⟨cs "feature/x",
   ⟨cs "main", false, none, 0, 0, [⟨cs "a.ts", FcSection.staged, 'M', '.'⟩], [], [], []⟩,
   CcStrategy.autoStash, none, some (cs "Later"), cs "2026-10-11T08-00-00.000Z",
   [cs "develop"]⟩

/-- Does an event run a `git stash push`? -/
def isStashEvent (e : CcEvent) : Bool :=
  match e with
  | CcEvent.git (a :: _) => a == cs "stash"
  | _ => false

/-- Does an event run a `git checkout`? -/
def isCheckoutEvent (e : CcEvent) : Bool :=
  match e with
  | CcEvent.git (a :: _) => a == cs "checkout"
  | _ => false

/-- The line blocks of worktree-porcelain output, delimited by blank
lines, used to state what the specification says about block handling. -/
def splitBlank : List (List Char) → List (List (List Char))
  | [] => [[]]
  | l :: rest =>
    match splitBlank rest with
    | [] => [[]]
    | h :: t => if (trimChars l).isEmpty then [] :: h :: t else (l :: h) :: t

/-- The blocks of a worktree-porcelain input. -/
def wtBlocks (output : List Char) : List (List (List Char)) :=
  splitBlank (splitLines output)

/-- Does a block carry both a `worktree ` line and a `HEAD ` line? -/
def blockComplete (b : List (List Char)) : Bool :=
  b.any (fun l => strStarts l (cs "worktree ")) && b.any (fun l => strStarts l (cs "HEAD "))

/-- The ahead/behind extraction claim C4 attributes to `parseBranchRefs`:
regular-expression capture of `+N` / `-N` tokens (this is what the status
parser does for `# branch.ab` lines, stated here to compare with what
`parseBranchRefs` actually does). -/
def claimPlusMinusAB (metadata : List Char) : Nat × Nat :=
  ((capAfter (cs "+") metadata).getD 0, (capAfter (cs "-") metadata).getD 0)

/-! ## Supporting lemmas -/

theorem strStarts_append_self (p t : List Char) : strStarts (p ++ t) p = true := by
  induction p with
  | nil => cases t <;> rfl
  | cons c ps ih => simp [strStarts, ih]

theorem containsSub_append_of_starts (a : List Char) {s pat : List Char}
    (h : strStarts s pat = true) : containsSub (a ++ s) pat = true := by
  induction a with
  | nil =>
    cases s with
    | nil =>
      cases pat with
      | nil => rfl
      | cons p ps => simp [strStarts] at h
    | cons c t => simp [containsSub, h]
  | cons c a ih => simp [containsSub, ih]

theorem containsSub_of_decomp (a b t : List Char) :
    containsSub (a ++ b ++ t) b = true := by
  have : strStarts (b ++ t) b = true := strStarts_append_self b t
  simpa [List.append_assoc] using containsSub_append_of_starts a this

theorem strStarts_head {l : List Char} {c : Char} {ps : List Char}
    (h : strStarts l (c :: ps) = true) : ∃ t, l = c :: t := by
  cases l with
  | nil => simp [strStarts] at h
  | cons c2 t =>
    simp only [strStarts, Bool.and_eq_true, beq_iff_eq] at h
    exact ⟨t, by rw [h.1]⟩

theorem capAfter_some_contains {m s : List Char} {n : Nat}
    (h : capAfter m s = some n) : containsSub s m = true := by
  induction s with
  | nil => simp [capAfter] at h
  | cons c t ih =>
    rw [capAfter] at h
    by_cases hs : strStarts (c :: t) m = true
    · simp [containsSub, hs]
    · simp only [Bool.not_eq_true] at hs
      simp only [hs, Bool.false_eq_true, if_false] at h
      simp [containsSub, ih h]

theorem capAfter_none_of_not_contains {m s : List Char}
    (h : containsSub s m = false) : capAfter m s = none := by
  cases hc : capAfter m s with
  | none => rfl
  | some n => rw [capAfter_some_contains hc] at h; exact absurd h (by simp)

/-! ## Claim C10 -/

/-- C10: `RepositoryManager.getActiveRepository` returns the first
repository whenever no active id is set or the stored id matches no
repository; it returns `undefined` exactly when the collection is empty,
so a non-empty collection always resolves to some repository. -/
theorem getActiveRepository_total (activeId : Option (List Char))
    (repos : List RepositoryInfo) :
    ((activeId = none ∨ ∀ r ∈ repos, some r.id ≠ activeId) →
      getActiveRepository activeId repos = repos.head?) ∧
    (getActiveRepository activeId repos = none ↔ repos = []) ∧
    (repos ≠ [] → ∃ r, getActiveRepository activeId repos = some r) := by
  refine ⟨?_, ?_, ?_⟩
  · rintro (h | h)
    · rw [h]; rfl
    · cases activeId with
      | none => rfl
      | some id =>
        have hf : repos.find? (fun repo => repo.id == id) = none := by
          rw [List.find?_eq_none]
          intro r hr
          have := h r hr
          simp only [ne_eq, Option.some.injEq] at this
          simp [this]
        simp [getActiveRepository, hf]
  · cases activeId with
    | none => simp [getActiveRepository, List.head?_eq_none_iff]
    | some id =>
      cases hf : repos.find? (fun repo => repo.id == id) with
      | none =>
        simp [getActiveRepository, hf, List.head?_eq_none_iff]
      | some r =>
        have : repos ≠ [] := by
          intro he
          rw [he] at hf
          simp at hf
        simp [getActiveRepository, hf, this]
  · intro h
    cases hg : getActiveRepository activeId repos with
    | none =>
      have := ((by
        cases activeId with
        | none => simp [getActiveRepository, List.head?_eq_none_iff]
        | some id =>
          cases hf : repos.find? (fun repo => repo.id == id) with
          | none => simp [getActiveRepository, hf, List.head?_eq_none_iff]
          | some r =>
            have hne : repos ≠ [] := by
              intro he; rw [he] at hf; simp at hf
            simp [getActiveRepository, hf, hne] : getActiveRepository activeId repos = none ↔ repos = [])).mp hg
      exact absurd this h
    | some r => exact ⟨r, rfl⟩

/-- Claim C10 witness: an id matching no repository resolves to the first
repository of a non-empty collection. -/
theorem getActiveRepository_total_witness :
    getActiveRepository (some (cs "file:///gone")) [⟨cs "file:///a"⟩, ⟨cs "file:///b"⟩]
      = some ⟨cs "file:///a"⟩ := by
  have h := (getActiveRepository_total (some (cs "file:///gone"))
    [⟨cs "file:///a"⟩, ⟨cs "file:///b"⟩]).1 (Or.inr (by decide))
  simpa using h

/-! ## Claim C6 -/

/-- Claim C6 counterexample: an `ExecutionFailure` whose normalized text
contains `"non-fast-forward"` but also the earlier table pattern
`"not a git repository"` is classified by the first matching entry and
gets no recovery actions, not `["Pull then Push", "Force with Lease"]`. -/
theorem suggestAction_preempted_counterexample :
    containsSub
      (classifierSource (cs "fatal: not a git repository")
        (some (cs "! [rejected] main -> main (non-fast-forward)")))
      (cs "non-fast-forward") = true ∧
    (suggestAction (cs "fatal: not a git repository")
      (some (cs "! [rejected] main -> main (non-fast-forward)"))).2 = [] ∧
    ([] : List (List Char)) ≠ [cs "Pull then Push", cs "Force with Lease"] := by
  refine ⟨by decide, by decide, by decide⟩

/-- C6 (amended): an `ExecutionFailure` whose case-folded, concatenated
message and stderr contain `"non-fast-forward"` and match none of the
earlier patterns of the fixed ordered table is classified to the actions
`["Pull then Push", "Force with Lease"]`, in that order. -/
theorem suggestAction_nonFastForward (message : List Char) (stderr : Option (List Char))
    (h1 : containsSub (classifierSource message stderr) (cs "not a git repository") = false)
    (h2 : containsSub (classifierSource message stderr) (cs "no upstream configured") = false)
    (h3 : containsSub (classifierSource message stderr)
      (cs "could not read from remote repository") = false)
    (h4 : containsSub (classifierSource message stderr) (cs "authentication failed") = false)
    (h5 : containsSub (classifierSource message stderr) (cs "pathspec") = false)
    (h6 : containsSub (classifierSource message stderr) (cs "nothing to commit") = false)
    (h7 : containsSub (classifierSource message stderr) (cs "merge conflict") = false)
    (h8 : containsSub (classifierSource message stderr)
      (cs "would be overwritten by checkout") = false)
    (h9 : containsSub (classifierSource message stderr) (cs "non-fast-forward") = true) :
    suggestAction message stderr =
      (cs "Push rejected (non-fast-forward).",
       [cs "Pull then Push", cs "Force with Lease"]) := by
  simp [suggestAction, h1, h2, h3, h4, h5, h6, h7, h8, h9]

/-- Claim C6 witness: a plain rejected-push failure classifies to the two
recovery actions. -/
theorem suggestAction_nonFastForward_witness :
    suggestAction (cs "Command failed: git push")
      (some (cs "! [rejected] main -> main (non-fast-forward)")) =
      (cs "Push rejected (non-fast-forward).",
       [cs "Pull then Push", cs "Force with Lease"]) :=
  suggestAction_nonFastForward (cs "Command failed: git push")
    (some (cs "! [rejected] main -> main (non-fast-forward)"))
    (by decide) (by decide) (by decide) (by decide) (by decide) (by decide) (by decide)
    (by decide) (by decide)

/-! ## Claim C5 -/

/-- Claim C5 counterexample: for the mutating command `push` on a cache
holding a key of the repository's namespace, `runGit` removes the key but
the invalidation event precedes the subprocess execution — the trace has
no invalidation at or after the command, contradicting "invalidated
immediately after the command completes". -/
theorem runGit_order_counterexample :
    (runGitModel (cs "/repo") [cs "push", cs "origin"]
        ([(cs "branches:file:///repo:main", ⟨5, 0⟩)] : Cache Nat)).2
      = [GsEvent.invalidate (cs "/repo"),
         GsEvent.exec (cs "/repo") [cs "push", cs "origin"]] ∧
    invAfterExec
      ((runGitModel (cs "/repo") [cs "push", cs "origin"]
        ([(cs "branches:file:///repo:main", ⟨5, 0⟩)] : Cache Nat)).2) = false ∧
    (runGitModel (cs "/repo") [cs "push", cs "origin"]
        ([(cs "branches:file:///repo:main", ⟨5, 0⟩)] : Cache Nat)).1 = [] := by
  refine ⟨by decide, by decide, by decide⟩

/-- C5 (amended): for every mutating subprocess command (first argument in
the write-command set) the cache entries whose keys contain the affected
repository's working directory are invalidated immediately *before* the
command is issued — so they are gone when it completes and every dependent
cached read afterwards misses; non-mutating commands invalidate
nothing. -/
theorem runGit_invalidation {α : Type} (cache : Cache α) (cwd : List Char)
    (args : List (List Char)) :
    (isMutating args = true →
      (runGitModel cwd args cache).2 = [GsEvent.invalidate cwd, GsEvent.exec cwd args] ∧
      (∀ e ∈ (runGitModel cwd args cache).1, containsSub e.1 cwd = false) ∧
      (∀ key ttl now, containsSub key cwd = true →
        (getCached key ttl now (runGitModel cwd args cache).1).1 = none)) ∧
    (isMutating args = false →
      (runGitModel cwd args cache).1 = cache ∧
      (runGitModel cwd args cache).2 = [GsEvent.exec cwd args]) := by
  constructor
  · intro hm
    refine ⟨by simp [runGitModel, hm], ?_, ?_⟩
    · intro e he
      simp only [runGitModel, invalidateShallowCache, hm, if_true] at he
      have := List.of_mem_filter he
      simpa using this
    · intro key ttl now hkey
      have hfind : (runGitModel cwd args cache).1.find? (fun e => e.1 == key) = none := by
        rw [List.find?_eq_none]
        intro e he hbe
        simp only [runGitModel, invalidateShallowCache, hm, if_true] at he
        have hne := List.of_mem_filter he
        simp only [beq_iff_eq] at hbe
        rw [hbe, hkey] at hne
        simp at hne
      simp [getCached, hfind]
  · intro hm
    constructor
    · simp [runGitModel, invalidateShallowCache, hm]
    · simp [runGitModel, hm]

/-- Claim C5 witness: a mutating `checkout` empties the repository's key
namespace so the dependent branch-list read misses, while a non-mutating
`status` read leaves the cache unchanged. -/
theorem runGit_invalidation_witness :
    (getCached (cs "branches:file:///r:main") 3000 10
      ((runGitModel (cs "/r") [cs "checkout", cs "dev"]
        ([(cs "branches:file:///r:main", ⟨5, 42⟩)] : Cache Nat)).1)).1 = none ∧
    (runGitModel (cs "/r") statusArgs
      ([(cs "branches:file:///r:main", ⟨5, 42⟩)] : Cache Nat)).1
      = [(cs "branches:file:///r:main", ⟨5, 42⟩)] := by
  constructor
  · exact ((runGit_invalidation ([(cs "branches:file:///r:main", ⟨5, 42⟩)] : Cache Nat)
      (cs "/r") [cs "checkout", cs "dev"]).1 (by decide)).2.2
      (cs "branches:file:///r:main") 3000 10 (by decide)
  · exact ((runGit_invalidation ([(cs "branches:file:///r:main", ⟨5, 42⟩)] : Cache Nat)
      (cs "/r") statusArgs).2 (by decide)).1

/-! ## Claims C4 and C7: parseBranchRefs -/

theorem parseBranchLine_fields {cur : Option (List Char)} {line : List Char} {b : BranchInfo}
    (h : parseBranchLine cur line = some b) :
    b.kind = (if strStarts (tabField line 0) (cs "refs/remotes/") then BranchKind.remote
              else BranchKind.local) ∧
    b.upstream = (if !(tabField line 1).isEmpty && tabField line 1 != cs "-"
                  then some (tabField line 1) else none) ∧
    b.ahead = (capAfter (cs "ahead ") (tabField line 2)).getD 0 ∧
    b.behind = (capAfter (cs "behind ") (tabField line 2)).getD 0 ∧
    b.merged = (b.ahead == 0 && b.behind == 0 && b.upstream.isSome) ∧
    b.stale = (b.kind == BranchKind.local && b.upstream.isNone) := by
  cases he : (tabField line 0).isEmpty with
  | true => simp [parseBranchLine, he] at h
  | false =>
    simp only [parseBranchLine, he, Bool.false_eq_true, if_false, Option.some.injEq] at h
    cases h
    simp [parseAheadBehind]

/-- Claim C4 counterexample: on a real `for-each-ref` row whose tracking
annotation is `[ahead 3, behind 1]` (no `+N`/`-N` token at all),
`parseBranchRefs` returns ahead = 3, behind = 1, while the `+N`/`-N`
capture the claim describes yields (0, 0). -/
theorem parseBranchRefs_plusMinus_counterexample :
    (parseBranchRefs (cs "refs/heads/main\torigin/main\t[ahead 3, behind 1]\t1700000000")
      none).map (fun b => (b.ahead, b.behind)) = [(3, 1)] ∧
    claimPlusMinusAB (cs "[ahead 3, behind 1]") = (0, 0) ∧
    ((3, 1) : Nat × Nat) ≠ (0, 0) := by
  refine ⟨by decide, by decide, by decide⟩

/-- C4 (amended): `parseBranchRefs` obtains ahead and behind by
regular-expression capture of `ahead N` / `behind N` tokens from the
tracking-annotation field (the third tab-separated field), and both
default to zero when no such token is present; every emitted record
corresponds to a row and vice versa. -/
theorem parseBranchRefs_aheadBehind :
    (∀ (output : List Char) (cur : Option (List Char)) (line : List Char) (b : BranchInfo),
      line ∈ branchLines output → parseBranchLine cur line = some b →
      b ∈ parseBranchRefs output cur ∧
      b.ahead = (capAfter (cs "ahead ") (tabField line 2)).getD 0 ∧
      b.behind = (capAfter (cs "behind ") (tabField line 2)).getD 0 ∧
      (containsSub (tabField line 2) (cs "ahead ") = false → b.ahead = 0) ∧
      (containsSub (tabField line 2) (cs "behind ") = false → b.behind = 0)) ∧
    (∀ (output : List Char) (cur : Option (List Char)) (b : BranchInfo),
      b ∈ parseBranchRefs output cur →
      ∃ line ∈ branchLines output, parseBranchLine cur line = some b) := by
  constructor
  · intro output cur line b hline hb
    obtain ⟨-, -, hah, hbe, -, -⟩ := parseBranchLine_fields hb
    refine ⟨List.mem_filterMap.mpr ⟨line, hline, hb⟩, hah, hbe, ?_, ?_⟩
    · intro hno
      rw [hah, capAfter_none_of_not_contains hno]
      rfl
    · intro hno
      rw [hbe, capAfter_none_of_not_contains hno]
      rfl
  · intro output cur b hb
    exact List.mem_filterMap.mp hb

/-- Claim C4 witness: a row with no `ahead`/`behind` token at all parses
with both counts zero and is emitted into the branch list. -/
theorem parseBranchRefs_aheadBehind_witness :
    (⟨cs "refs/heads/dev", cs "dev", BranchKind.local, none, false, some (cs "origin/dev"),
       0, 0, true, false, none⟩ : BranchInfo) ∈
      parseBranchRefs (cs "refs/heads/dev\torigin/dev\t\t0") none ∧
    (⟨cs "refs/heads/dev", cs "dev", BranchKind.local, none, false, some (cs "origin/dev"),
       0, 0, true, false, none⟩ : BranchInfo).ahead = 0 ∧
    (⟨cs "refs/heads/dev", cs "dev", BranchKind.local, none, false, some (cs "origin/dev"),
       0, 0, true, false, none⟩ : BranchInfo).behind = 0 := by
  have h := (parseBranchRefs_aheadBehind).1 (cs "refs/heads/dev\torigin/dev\t\t0") none
    (cs "refs/heads/dev\torigin/dev\t\t0")
    ⟨cs "refs/heads/dev", cs "dev", BranchKind.local, none, false, some (cs "origin/dev"),
      0, 0, true, false, none⟩ (by decide) (by decide)
  exact ⟨h.1, h.2.2.2.1 (by decide), h.2.2.2.2 (by decide)⟩

/-- C7: every `BranchInfo` emitted by `parseBranchRefs` has `merged` true
only when ahead = 0, behind = 0 and an upstream is set, and `stale` true
only for a local branch with no upstream; a row whose upstream field is
the placeholder `-` parses to no upstream and, for a local ref, is
stale. -/
theorem parseBranchRefs_flag_invariants :
    (∀ (output : List Char) (cur : Option (List Char)) (b : BranchInfo),
      b ∈ parseBranchRefs output cur →
      (b.merged = true → b.ahead = 0 ∧ b.behind = 0 ∧ b.upstream ≠ none) ∧
      (b.stale = true → b.kind = BranchKind.local ∧ b.upstream = none)) ∧
    (∀ (cur : Option (List Char)) (line : List Char) (b : BranchInfo),
      tabField line 1 = cs "-" → parseBranchLine cur line = some b →
      b.upstream = none ∧ (b.kind = BranchKind.local → b.stale = true)) := by
  constructor
  · intro output cur b hb
    obtain ⟨line, -, hsome⟩ := List.mem_filterMap.mp hb
    obtain ⟨-, -, -, -, hm, hs⟩ := parseBranchLine_fields hsome
    constructor
    · intro hmt
      rw [hm] at hmt
      simp only [Bool.and_eq_true, beq_iff_eq, Option.isSome_iff_exists] at hmt
      obtain ⟨⟨ha, hbh⟩, u, hu⟩ := hmt
      exact ⟨ha, hbh, by simp [hu]⟩
    · intro hst
      rw [hs] at hst
      simp only [Bool.and_eq_true, beq_iff_eq, Option.isNone_iff_eq_none] at hst
      exact hst
  · intro cur line b hdash hsome
    obtain ⟨-, hu, -, -, -, hs⟩ := parseBranchLine_fields hsome
    rw [hdash] at hu
    have hune : b.upstream = none := by
      rw [hu]
      decide
    refine ⟨hune, ?_⟩
    intro hk
    rw [hs, hk, hune]
    rfl

/-- Claim C7 witness: a local row with the `-` upstream placeholder parses
to no upstream, is stale and not merged. -/
theorem parseBranchRefs_flag_invariants_witness :
    (⟨cs "refs/heads/hotfix", cs "hotfix", BranchKind.local, none, false, none,
       0, 0, false, true, none⟩ : BranchInfo).upstream = none ∧
    (⟨cs "refs/heads/hotfix", cs "hotfix", BranchKind.local, none, false, none,
       0, 0, false, true, none⟩ : BranchInfo).stale = true := by
  have h := (parseBranchRefs_flag_invariants).2 none (cs "refs/heads/hotfix\t-\t\t0")
    ⟨cs "refs/heads/hotfix", cs "hotfix", BranchKind.local, none, false, none,
      0, 0, false, true, none⟩ (by decide) (by decide)
  exact ⟨h.1, h.2 (by decide)⟩

/-! ## Claim C1 -/

/-- C1: in the Synchronize workflow, when the status recomputed after the
fetch is diverged (ahead > 0 and behind > 0) and the operator selects
rebase, the subprocess call order is fetch, then rebase onto the upstream
ref, then ahead is recomputed once more (a further status call) and push
is issued exactly when still ahead > 0; selecting Cancel at the divergence
choice ends the workflow after the fetch and status calls, with no rebase,
merge, pull or push performed. -/
theorem sync_diverged_order :
    (∀ (env : SyncEnv) (u : List Char),
      env.status1.ahead > 0 → env.status1.behind > 0 →
      env.status1.upstream = some u →
      env.choice = some (cs "Rebase onto upstream") →
      syncRun env = Except.ok
        ([fetchArgs (some env.remote), statusArgs, rebaseArgs u, statusArgs]
          ++ (if env.status2.ahead > 0 then [pushArgs (some env.remote)] else []))) ∧
    (∀ env : SyncEnv,
      env.status1.ahead > 0 → env.status1.behind > 0 →
      env.choice = some (cs "Cancel") →
      syncRun env = Except.ok [fetchArgs (some env.remote), statusArgs] ∧
      ∀ args ∈ [fetchArgs (some env.remote), statusArgs],
        (args.get? 0).getD [] ≠ cs "rebase" ∧ (args.get? 0).getD [] ≠ cs "merge" ∧
        (args.get? 0).getD [] ≠ cs "pull" ∧ (args.get? 0).getD [] ≠ cs "push") := by
  constructor
  · intro env u h1 h2 h3 h4
    have hne : cs "Rebase onto upstream" ≠ cs "Cancel" := by decide
    have hrb : strStarts (cs "Rebase onto upstream") (cs "Rebase") = true := by decide
    simp [syncRun, h1, h2, h3, h4, hne, hrb, syncTail, List.append_assoc]
  · intro env h1 h2 h3
    constructor
    · simp [syncRun, h1, h2, h3]
    · intro args hargs
      rcases List.mem_pair.mp hargs with h | h <;> subst h
      · exact ⟨by simp [fetchArgs]; decide, by simp [fetchArgs]; decide,
          by simp [fetchArgs]; decide, by simp [fetchArgs]; decide⟩
      · exact ⟨by decide, by decide, by decide, by decide⟩

/-- Claim C1 witness: a diverged repository (ahead 2, behind 1) with
rebase selected and still ahead 2 afterwards produces exactly the call
sequence fetch, status, rebase onto upstream, status, push. -/
theorem sync_diverged_order_witness :
    syncRun
      ⟨cs "origin", false,
       ⟨cs "main", false, some (cs "origin/main"), 2, 1, [], [], [], []⟩,
       ⟨cs "main", false, some (cs "origin/main"), 2, 0, [], [], [], []⟩,
       some (cs "Rebase onto upstream")⟩ =
      Except.ok
        [fetchArgs (some (cs "origin")), statusArgs, rebaseArgs (cs "origin/main"),
         statusArgs, pushArgs (some (cs "origin"))] := by
  have h := sync_diverged_order.1
    ⟨cs "origin", false,
     ⟨cs "main", false, some (cs "origin/main"), 2, 1, [], [], [], []⟩,
     ⟨cs "main", false, some (cs "origin/main"), 2, 0, [], [], [], []⟩,
     some (cs "Rebase onto upstream")⟩
    (cs "origin/main") (by decide) (by decide) rfl rfl
  simpa using h

/-! ## Claim C2 -/

theorem strStarts_self (l : List Char) : strStarts l l = true := by
  simpa using strStarts_append_self l []

/-- Claim C2 counterexample: a working tree that is dirty in the claim's
sense (the four counts sum above zero) through an unresolved conflict,
with strategy `autoStash`, does not stash and does not check out — the
run stops at the conflict guard — contradicting the claimed stash,
checkout and branch-memory update. -/
theorem smartCheckout_conflicts_counterexample :
    conflictedCheckoutEnv.status.staged.length
      + conflictedCheckoutEnv.status.unstaged.length
      + conflictedCheckoutEnv.status.untracked.length
      + conflictedCheckoutEnv.status.conflicts.length > 0 ∧
    conflictedCheckoutEnv.strategy = CcStrategy.autoStash ∧
    (smartCheckoutRun conflictedCheckoutEnv).1 =
      [CcEvent.git statusArgs,
       CcEvent.errorMsg (cs "Resolve conflicts before switching branches.")] ∧
    (smartCheckoutRun conflictedCheckoutEnv).1.any isStashEvent = false ∧
    (smartCheckoutRun conflictedCheckoutEnv).1.any isCheckoutEvent = false ∧
    (smartCheckoutRun conflictedCheckoutEnv).2 = ([] : List (List Char)) := by
  refine ⟨by decide, by decide, by decide, by decide, by decide, by decide⟩

/-- C2 (amended): in the Smart Checkout workflow, when the working tree
has no unresolved conflicts but is dirty (staged+unstaged+untracked counts
sum above zero) and the configured default strategy is `autoStash`, no
strategy prompt is shown, a stash is created whose message contains the
pre-switch branch name and the timestamp, checkout to the target branch
then proceeds, and branch-memory records the target branch as the most
recent checkout. -/
theorem smartCheckout_autoStash (env : CheckoutEnv)
    (hc : env.status.conflicts = [])
    (hd : env.status.staged.length + env.status.unstaged.length
      + env.status.untracked.length > 0)
    (hs : env.strategy = CcStrategy.autoStash) :
    (smartCheckoutRun env).1.take 4 =
      [CcEvent.git statusArgs,
       CcEvent.git (stashPushArgs
         (some (autoStashMessage env.timestamp env.status.branch)) false),
       CcEvent.git (checkoutArgs env.target),
       CcEvent.record env.target] ∧
    CcEvent.strategyPrompt ∉ (smartCheckoutRun env).1 ∧
    containsSub (autoStashMessage env.timestamp env.status.branch) env.timestamp = true ∧
    containsSub (autoStashMessage env.timestamp env.status.branch) env.status.branch
      = true ∧
    (smartCheckoutRun env).2 = recordCheckout env.recents0 env.target ∧
    ((smartCheckoutRun env).2).head? = some env.target := by
  have hrun : smartCheckoutRun env =
      ([CcEvent.git statusArgs,
        CcEvent.git (stashPushArgs
          (some (autoStashMessage env.timestamp env.status.branch)) false),
        CcEvent.git (checkoutArgs env.target),
        CcEvent.record env.target, CcEvent.offerRestore] ++
        (if env.restoreChoice == some (cs "Apply") then
          [CcEvent.git (stashApplyArgs (cs "stash@\x7b0\x7d") false)]
        else if env.restoreChoice == some (cs "Pop") then
          [CcEvent.git (stashApplyArgs (cs "stash@\x7b0\x7d") true)]
        else []),
       recordCheckout env.recents0 env.target) := by
    simp [smartCheckoutRun, hc, hs, hd]
  refine ⟨?_, ?_, ?_, ?_, ?_, ?_⟩
  · rw [hrun]
    split_ifs <;> rfl
  · rw [hrun]
    split_ifs <;> simp
  · exact containsSub_append_of_starts (cs "auto: ")
      (strStarts_append_self env.timestamp (' ' :: env.status.branch))
  · have hdec : autoStashMessage env.timestamp env.status.branch =
        (cs "auto: " ++ env.timestamp ++ [' ']) ++ env.status.branch := by
      simp [autoStashMessage]
    rw [hdec]
    exact containsSub_append_of_starts _ (strStarts_self env.status.branch)
  · rw [hrun]
  · rw [hrun]
    simp only [recordCheckout]
    rw [List.take_succ_cons]
    rfl

/-- Claim C2 witness: a dirty, conflict-free tree with strategy
`autoStash` stashes with a message carrying branch and timestamp, checks
out the target, and puts the target at the head of the recents list. -/
theorem smartCheckout_autoStash_witness :
    (smartCheckoutRun dirtyCheckoutEnv).1.take 4 =
      [CcEvent.git statusArgs,
       CcEvent.git (stashPushArgs
         (some (autoStashMessage dirtyCheckoutEnv.timestamp
           dirtyCheckoutEnv.status.branch)) false),
       CcEvent.git (checkoutArgs dirtyCheckoutEnv.target),
       CcEvent.record dirtyCheckoutEnv.target] ∧
    containsSub (autoStashMessage dirtyCheckoutEnv.timestamp
      dirtyCheckoutEnv.status.branch) dirtyCheckoutEnv.status.branch = true ∧
    ((smartCheckoutRun dirtyCheckoutEnv).2).head? = some dirtyCheckoutEnv.target := by
  have h := smartCheckout_autoStash dirtyCheckoutEnv (by decide) (by decide) (by decide)
  exact ⟨h.1, h.2.2.2.1, h.2.2.2.2.2⟩

/-! ## Claim C9 -/

theorem stepStatus_ab_of_not {l : List Char} (s : StatusInfo)
    (h : strStarts l (cs "# branch.ab ") = false) :
    (stepStatus s l).ahead = s.ahead ∧ (stepStatus s l).behind = s.behind := by
  simp only [stepStatus, h]
  split_ifs <;> simp_all

theorem stepStatus_branch_of_not {l : List Char} (s : StatusInfo)
    (h : strStarts l (cs "# branch.head ") = false) :
    (stepStatus s l).branch = s.branch := by
  simp only [stepStatus, h]
  split_ifs <;> simp_all

theorem foldl_status_ab (ls : List (List Char)) (s : StatusInfo)
    (h : ∀ l ∈ ls, strStarts l (cs "# branch.ab ") = false) :
    (ls.foldl stepStatus s).ahead = s.ahead ∧ (ls.foldl stepStatus s).behind = s.behind := by
  induction ls generalizing s with
  | nil => exact ⟨rfl, rfl⟩
  | cons l ls ih =>
    have hl := h l (List.mem_cons_self l ls)
    have hrest : ∀ l2 ∈ ls, strStarts l2 (cs "# branch.ab ") = false :=
      fun l2 hm => h l2 (List.mem_cons_of_mem l hm)
    have hstep := stepStatus_ab_of_not s hl
    have := ih (stepStatus s l) hrest
    simp only [List.foldl_cons]
    rw [this.1, this.2, hstep.1, hstep.2]
    exact ⟨rfl, rfl⟩

theorem foldl_status_branch (ls : List (List Char)) (s : StatusInfo)
    (h : ∀ l ∈ ls, strStarts l (cs "# branch.head ") = false) :
    (ls.foldl stepStatus s).branch = s.branch := by
  induction ls generalizing s with
  | nil => rfl
  | cons l ls ih =>
    have hl := h l (List.mem_cons_self l ls)
    have hrest : ∀ l2 ∈ ls, strStarts l2 (cs "# branch.head ") = false :=
      fun l2 hm => h l2 (List.mem_cons_of_mem l hm)
    simp only [List.foldl_cons]
    rw [ih (stepStatus s l) hrest, stepStatus_branch_of_not s hl]

theorem stepStatus_ab_line (s : StatusInfo) :
    stepStatus s (cs "# branch.ab +3 -1") = { s with ahead := 3, behind := 1 } := by
  have h1 : strStarts (cs "# branch.ab +3 -1") (cs "# branch.head ") = false := by decide
  have h2 : strStarts (cs "# branch.ab +3 -1") (cs "# branch.upstream ") = false := by decide
  have h3 : strStarts (cs "# branch.ab +3 -1") (cs "# branch.ab ") = true := by decide
  have h4 : (capAfter (cs "+")
      (trimChars (removeFirst (cs "# branch.ab +3 -1") (cs "# branch.ab ")))).getD 0 = 3 := by
    decide
  have h5 : (capAfter (cs "-")
      (trimChars (removeFirst (cs "# branch.ab +3 -1") (cs "# branch.ab ")))).getD 0 = 1 := by
    decide
  simp only [stepStatus, h1, h2, h3, h4, h5, Bool.false_eq_true, if_false, if_true]

/-- C9: a status input whose `# branch.ab` line carries the tokens `+3`
and `-1` parses to ahead = 3 and behind = 1 (regardless of what precedes
the line, and of any later non-`branch.ab` lines), and an input lacking
the branch header lines keeps the sentinel branch `"HEAD"` with ahead = 0
and behind = 0. -/
theorem status_ab_and_header_defaults :
    (∀ pre post : List (List Char),
      (∀ l ∈ post, strStarts l (cs "# branch.ab ") = false) →
      (parseStatusFromLines (pre ++ (cs "# branch.ab +3 -1") :: post)).ahead = 3 ∧
      (parseStatusFromLines (pre ++ (cs "# branch.ab +3 -1") :: post)).behind = 1) ∧
    (∀ output : List Char,
      (∀ l ∈ statusLines output, strStarts l (cs "# branch.head ") = false ∧
        strStarts l (cs "# branch.ab ") = false) →
      (parseStatusPorcelainV2 output).branch = cs "HEAD" ∧
      (parseStatusPorcelainV2 output).ahead = 0 ∧
      (parseStatusPorcelainV2 output).behind = 0) := by
  constructor
  · intro pre post hpost
    unfold parseStatusFromLines
    rw [List.foldl_append, List.foldl_cons, stepStatus_ab_line]
    have h := foldl_status_ab post { pre.foldl stepStatus statusInit with ahead := 3, behind := 1 } hpost
    exact ⟨h.1, h.2⟩
  · intro output h
    unfold parseStatusPorcelainV2 parseStatusFromLines
    have hb := foldl_status_branch (statusLines output) statusInit (fun l hm => (h l hm).1)
    have hab := foldl_status_ab (statusLines output) statusInit (fun l hm => (h l hm).2)
    exact ⟨hb, hab.1, hab.2⟩

/-- Claim C9 witness: the single header line `# branch.ab +3 -1` parses
to ahead 3, behind 1, and a header-free one-record input keeps branch
`"HEAD"` with zero counts. -/
theorem status_ab_and_header_defaults_witness :
    (parseStatusFromLines [cs "# branch.ab +3 -1"]).ahead = 3 ∧
    (parseStatusFromLines [cs "# branch.ab +3 -1"]).behind = 1 ∧
    (parseStatusPorcelainV2 (cs "1 M. N... 100644 100644 100644 abc def a.ts")).branch
      = cs "HEAD" ∧
    (parseStatusPorcelainV2 (cs "1 M. N... 100644 100644 100644 abc def a.ts")).ahead = 0 ∧
    (parseStatusPorcelainV2 (cs "1 M. N... 100644 100644 100644 abc def a.ts")).behind
      = 0 := by
  have h1 := status_ab_and_header_defaults.1 [] [] (by simp)
  have h2 := status_ab_and_header_defaults.2
    (cs "1 M. N... 100644 100644 100644 abc def a.ts") (by decide)
  exact ⟨by simpa using h1.1, by simpa using h1.2, h2.1, h2.2.1, h2.2.2⟩

/-! ## Claim C3 -/

theorem strStarts_false_of_ne {l : List Char} {c d : Char} {ps qs : List Char}
    (h : strStarts l (c :: ps) = true) (hne : (c == d) = false) :
    strStarts l (d :: qs) = false := by
  obtain ⟨t, rfl⟩ := strStarts_head h
  simp [strStarts, hne]

theorem filerec_headers_false {l : List Char} (h : isFileRec l = true) :
    strStarts l (cs "# branch.head ") = false ∧
    strStarts l (cs "# branch.upstream ") = false ∧
    strStarts l (cs "# branch.ab ") = false := by
  have e1 : cs "# branch.head " = '#' :: cs " branch.head " := rfl
  have e2 : cs "# branch.upstream " = '#' :: cs " branch.upstream " := rfl
  have e3 : cs "# branch.ab " = '#' :: cs " branch.ab " := rfl
  simp only [isFileRec, Bool.or_eq_true] at h
  rcases h with h | h
  · have h1 : strStarts l ('1' :: cs " ") = true := h
    exact ⟨by rw [e1]; exact strStarts_false_of_ne h1 (by decide),
           by rw [e2]; exact strStarts_false_of_ne h1 (by decide),
           by rw [e3]; exact strStarts_false_of_ne h1 (by decide)⟩
  · have h1 : strStarts l ('2' :: cs " ") = true := h
    exact ⟨by rw [e1]; exact strStarts_false_of_ne h1 (by decide),
           by rw [e2]; exact strStarts_false_of_ne h1 (by decide),
           by rw [e3]; exact strStarts_false_of_ne h1 (by decide)⟩

theorem stepStatus_staged_of_nonfile {l : List Char} (h : isFileRec l = false)
    (s : StatusInfo) : (stepStatus s l).staged = s.staged := by
  simp only [stepStatus, h]
  split_ifs <;> simp_all

theorem stepStatus_unstaged_of_nonfile {l : List Char} (h : isFileRec l = false)
    (s : StatusInfo) : (stepStatus s l).unstaged = s.unstaged := by
  simp only [stepStatus, h]
  split_ifs <;> simp_all

theorem stepStatus_staged_spec (s : StatusInfo) (l : List Char) :
    (stagedCond l = true →
      (stepStatus s l).staged
        = s.staged ++ [⟨recPath l, FcSection.staged, xOf l, yOf l⟩]) ∧
    (stagedCond l = false → (stepStatus s l).staged = s.staged) := by
  constructor
  · intro h
    simp only [stagedCond, Bool.and_eq_true, Bool.not_eq_true'] at h
    obtain ⟨⟨hf, hcp⟩, hx⟩ := h
    obtain ⟨hh1, hh2, hh3⟩ := filerec_headers_false hf
    simp only [stepStatus, hh1, hh2, hh3, hf, hcp, hx, Bool.false_eq_true, if_false, if_true]
    split_ifs <;> rfl
  · intro h
    by_cases hf : isFileRec l = true
    · obtain ⟨hh1, hh2, hh3⟩ := filerec_headers_false hf
      simp only [stagedCond, hf, Bool.true_and, Bool.and_eq_false_iff,
        Bool.not_eq_false'] at h
      simp only [stepStatus, hh1, hh2, hh3, hf, Bool.false_eq_true, if_false, if_true]
      rcases h with hcp | hx
      · simp only [hcp, if_true]
      · by_cases hcp : conflictPat (xOf l) (yOf l) = true
        · simp only [hcp, if_true]
        · simp only [Bool.not_eq_true] at hcp
          simp only [hcp, Bool.false_eq_true, if_false]
          have hx2 : (xOf l != '.') = false := by
            simpa using hx
          simp only [hx2, Bool.false_eq_true, if_false]
          split_ifs <;> rfl
    · simp only [Bool.not_eq_true] at hf
      exact stepStatus_staged_of_nonfile hf s

theorem stepStatus_unstaged_spec (s : StatusInfo) (l : List Char) :
    (unstagedCond l = true →
      (stepStatus s l).unstaged
        = s.unstaged ++ [⟨recPath l, FcSection.unstaged, xOf l, yOf l⟩]) ∧
    (unstagedCond l = false → (stepStatus s l).unstaged = s.unstaged) := by
  constructor
  · intro h
    simp only [unstagedCond, Bool.and_eq_true, Bool.not_eq_true'] at h
    obtain ⟨⟨hf, hcp⟩, hy⟩ := h
    obtain ⟨hh1, hh2, hh3⟩ := filerec_headers_false hf
    simp only [stepStatus, hh1, hh2, hh3, hf, hcp, hy, Bool.false_eq_true, if_false, if_true]
    split_ifs <;> rfl
  · intro h
    by_cases hf : isFileRec l = true
    · obtain ⟨hh1, hh2, hh3⟩ := filerec_headers_false hf
      simp only [unstagedCond, hf, Bool.true_and, Bool.and_eq_false_iff,
        Bool.not_eq_false'] at h
      simp only [stepStatus, hh1, hh2, hh3, hf, Bool.false_eq_true, if_false, if_true]
      rcases h with hcp | hy
      · simp only [hcp, if_true]
      · by_cases hcp : conflictPat (xOf l) (yOf l) = true
        · simp only [hcp, if_true]
        · simp only [Bool.not_eq_true] at hcp
          simp only [hcp, Bool.false_eq_true, if_false]
          have hy2 : (yOf l != '.') = false := by
            simpa using hy
          simp only [hy2, Bool.false_eq_true, if_false]
          split_ifs <;> rfl
    · simp only [Bool.not_eq_true] at hf
      exact stepStatus_unstaged_of_nonfile hf s

theorem stepStatus_conflicts_of_conflict {l : List Char} (hf : isFileRec l = true)
    (hcp : conflictPat (xOf l) (yOf l) = true) (s : StatusInfo) :
    (stepStatus s l).conflicts
      = s.conflicts ++ [⟨recPath l, FcSection.conflicts, xOf l, yOf l⟩] := by
  obtain ⟨hh1, hh2, hh3⟩ := filerec_headers_false hf
  simp only [stepStatus, hh1, hh2, hh3, hf, hcp, Bool.false_eq_true, if_false, if_true]

theorem stepStatus_conflicts_growth (s : StatusInfo) (l : List Char) :
    (stepStatus s l).conflicts = s.conflicts ∨
    ∃ c : FileChange, (stepStatus s l).conflicts = s.conflicts ++ [c] ∧
      c.sec = FcSection.conflicts ∧ conflictPat c.x c.y = true := by
  by_cases hf : isFileRec l = true
  · by_cases hcp : conflictPat (xOf l) (yOf l) = true
    · exact Or.inr ⟨⟨recPath l, FcSection.conflicts, xOf l, yOf l⟩,
        stepStatus_conflicts_of_conflict hf hcp s, rfl, hcp⟩
    · obtain ⟨hh1, hh2, hh3⟩ := filerec_headers_false hf
      simp only [Bool.not_eq_true] at hcp
      left
      simp only [stepStatus, hh1, hh2, hh3, hf, hcp, Bool.false_eq_true, if_false, if_true]
      split_ifs <;> rfl
  · simp only [Bool.not_eq_true] at hf
    by_cases h1 : strStarts l (cs "# branch.head ") = true
    · left; simp [stepStatus, h1]
    · by_cases h2 : strStarts l (cs "# branch.upstream ") = true
      · left; simp [stepStatus, h1, h2]
      · by_cases h3 : strStarts l (cs "# branch.ab ") = true
        · left; simp [stepStatus, h1, h2, h3]
        · by_cases h4 : strStarts l (cs "u ") = true
          · right
            refine ⟨⟨joinSp ((splitCh ' ' l).drop 10), FcSection.conflicts, 'U', 'U'⟩,
              ?_, ?_, ?_⟩
            · simp [stepStatus, h1, h2, h3, hf, h4]
            · rfl
            · rfl
          · by_cases h5 : strStarts l (cs "? ") = true
            · left; simp [stepStatus, h1, h2, h3, hf, h4, h5]
            · left; simp [stepStatus, h1, h2, h3, hf, h4, h5]

theorem foldl_staged_len (ls : List (List Char)) (s : StatusInfo) :
    (ls.foldl stepStatus s).staged.length
      = s.staged.length + (ls.filter stagedCond).length := by
  induction ls generalizing s with
  | nil => simp
  | cons l ls ih =>
    simp only [List.foldl_cons]
    rw [ih]
    cases hc : stagedCond l with
    | true =>
      rw [(stepStatus_staged_spec s l).1 hc]
      simp [List.filter_cons, hc]
      omega
    | false =>
      rw [(stepStatus_staged_spec s l).2 hc]
      simp [List.filter_cons, hc]

theorem foldl_unstaged_len (ls : List (List Char)) (s : StatusInfo) :
    (ls.foldl stepStatus s).unstaged.length
      = s.unstaged.length + (ls.filter unstagedCond).length := by
  induction ls generalizing s with
  | nil => simp
  | cons l ls ih =>
    simp only [List.foldl_cons]
    rw [ih]
    cases hc : unstagedCond l with
    | true =>
      rw [(stepStatus_unstaged_spec s l).1 hc]
      simp [List.filter_cons, hc]
      omega
    | false =>
      rw [(stepStatus_unstaged_spec s l).2 hc]
      simp [List.filter_cons, hc]

theorem foldl_staged_inv (ls : List (List Char)) (s : StatusInfo)
    (h : ∀ c ∈ s.staged, c.sec = FcSection.staged ∧ conflictPat c.x c.y = false) :
    ∀ c ∈ (ls.foldl stepStatus s).staged,
      c.sec = FcSection.staged ∧ conflictPat c.x c.y = false := by
  induction ls generalizing s with
  | nil => exact h
  | cons l ls ih =>
    simp only [List.foldl_cons]
    apply ih
    cases hc : stagedCond l with
    | true =>
      rw [(stepStatus_staged_spec s l).1 hc]
      intro c hm
      rcases List.mem_append.mp hm with hm | hm
      · exact h c hm
      · simp only [List.mem_singleton] at hm
        subst hm
        have : conflictPat (xOf l) (yOf l) = false := by
          simp only [stagedCond, Bool.and_eq_true, Bool.not_eq_true'] at hc
          exact hc.1.2
        exact ⟨rfl, this⟩
    | false =>
      rw [(stepStatus_staged_spec s l).2 hc]
      exact h

theorem foldl_unstaged_inv (ls : List (List Char)) (s : StatusInfo)
    (h : ∀ c ∈ s.unstaged, c.sec = FcSection.unstaged ∧ conflictPat c.x c.y = false) :
    ∀ c ∈ (ls.foldl stepStatus s).unstaged,
      c.sec = FcSection.unstaged ∧ conflictPat c.x c.y = false := by
  induction ls generalizing s with
  | nil => exact h
  | cons l ls ih =>
    simp only [List.foldl_cons]
    apply ih
    cases hc : unstagedCond l with
    | true =>
      rw [(stepStatus_unstaged_spec s l).1 hc]
      intro c hm
      rcases List.mem_append.mp hm with hm | hm
      · exact h c hm
      · simp only [List.mem_singleton] at hm
        subst hm
        have : conflictPat (xOf l) (yOf l) = false := by
          simp only [unstagedCond, Bool.and_eq_true, Bool.not_eq_true'] at hc
          exact hc.1.2
        exact ⟨rfl, this⟩
    | false =>
      rw [(stepStatus_unstaged_spec s l).2 hc]
      exact h

theorem foldl_conflicts_inv (ls : List (List Char)) (s : StatusInfo)
    (h : ∀ c ∈ s.conflicts, c.sec = FcSection.conflicts ∧ conflictPat c.x c.y = true) :
    ∀ c ∈ (ls.foldl stepStatus s).conflicts,
      c.sec = FcSection.conflicts ∧ conflictPat c.x c.y = true := by
  induction ls generalizing s with
  | nil => exact h
  | cons l ls ih =>
    simp only [List.foldl_cons]
    apply ih
    rcases stepStatus_conflicts_growth s l with hg | ⟨c0, hg, hs0, hc0⟩
    · rw [hg]; exact h
    · rw [hg]
      intro c hm
      rcases List.mem_append.mp hm with hm | hm
      · exact h c hm
      · simp only [List.mem_singleton] at hm
        subst hm
        exact ⟨hs0, hc0⟩

theorem foldl_staged_mem (ls : List (List Char)) (s : StatusInfo) {c : FileChange}
    (h : c ∈ s.staged) : c ∈ (ls.foldl stepStatus s).staged := by
  induction ls generalizing s with
  | nil => exact h
  | cons l ls ih =>
    simp only [List.foldl_cons]
    apply ih
    cases hc : stagedCond l with
    | true => rw [(stepStatus_staged_spec s l).1 hc]; exact List.mem_append_left _ h
    | false => rw [(stepStatus_staged_spec s l).2 hc]; exact h

theorem foldl_unstaged_mem (ls : List (List Char)) (s : StatusInfo) {c : FileChange}
    (h : c ∈ s.unstaged) : c ∈ (ls.foldl stepStatus s).unstaged := by
  induction ls generalizing s with
  | nil => exact h
  | cons l ls ih =>
    simp only [List.foldl_cons]
    apply ih
    cases hc : unstagedCond l with
    | true => rw [(stepStatus_unstaged_spec s l).1 hc]; exact List.mem_append_left _ h
    | false => rw [(stepStatus_unstaged_spec s l).2 hc]; exact h

theorem foldl_conflicts_mem (ls : List (List Char)) (s : StatusInfo) {c : FileChange}
    (h : c ∈ s.conflicts) : c ∈ (ls.foldl stepStatus s).conflicts := by
  induction ls generalizing s with
  | nil => exact h
  | cons l ls ih =>
    simp only [List.foldl_cons]
    apply ih
    rcases stepStatus_conflicts_growth s l with hg | ⟨c0, hg, -, -⟩
    · rw [hg]; exact h
    · rw [hg]; exact List.mem_append_left _ h

/-- C3: for every status input, staged and unstaged entries are exactly the
non-conflict routings (a conflict marker `U` on either side, or the add/add
or delete/delete pair, routes a record to the conflicts set exclusively —
no staged or unstaged entry ever carries a conflict pattern, and every
conflict record lands in the conflicts set); for a non-conflict record a
non-empty first status character alone yields an entry in staged and a
non-empty second status character alone yields a (separate) entry in
unstaged — so a record with both sides non-empty appears in both sets;
each section's length equals the number of records routed to it, and
`staged.length + unstaged.length` counts the non-empty sides of
non-conflict file records (a record with both sides non-empty counts
twice, once per side). -/
theorem status_sections_routing (output : List Char) :
    (∀ c ∈ (parseStatusPorcelainV2 output).staged,
      c.sec = FcSection.staged ∧ conflictPat c.x c.y = false) ∧
    (∀ c ∈ (parseStatusPorcelainV2 output).unstaged,
      c.sec = FcSection.unstaged ∧ conflictPat c.x c.y = false) ∧
    (∀ c ∈ (parseStatusPorcelainV2 output).conflicts,
      c.sec = FcSection.conflicts ∧ conflictPat c.x c.y = true) ∧
    (∀ l ∈ statusLines output, isFileRec l = true →
      conflictPat (xOf l) (yOf l) = true →
      (⟨recPath l, FcSection.conflicts, xOf l, yOf l⟩ : FileChange)
        ∈ (parseStatusPorcelainV2 output).conflicts) ∧
    (∀ l ∈ statusLines output, isFileRec l = true →
      conflictPat (xOf l) (yOf l) = false → (xOf l != '.') = true →
      (⟨recPath l, FcSection.staged, xOf l, yOf l⟩ : FileChange)
        ∈ (parseStatusPorcelainV2 output).staged) ∧
    (∀ l ∈ statusLines output, isFileRec l = true →
      conflictPat (xOf l) (yOf l) = false → (yOf l != '.') = true →
      (⟨recPath l, FcSection.unstaged, xOf l, yOf l⟩ : FileChange)
        ∈ (parseStatusPorcelainV2 output).unstaged) ∧
    (parseStatusPorcelainV2 output).staged.length
      = ((statusLines output).filter stagedCond).length ∧
    (parseStatusPorcelainV2 output).unstaged.length
      = ((statusLines output).filter unstagedCond).length ∧
    (parseStatusPorcelainV2 output).staged.length
      + (parseStatusPorcelainV2 output).unstaged.length
      = ((statusLines output).filter stagedCond).length
        + ((statusLines output).filter unstagedCond).length := by
  refine ⟨?_, ?_, ?_, ?_, ?_, ?_, ?_, ?_, ?_⟩
  · exact foldl_staged_inv (statusLines output) statusInit (by simp [statusInit])
  · exact foldl_unstaged_inv (statusLines output) statusInit (by simp [statusInit])
  · exact foldl_conflicts_inv (statusLines output) statusInit (by simp [statusInit])
  · intro l hl hf hcp
    obtain ⟨l1, l2, he⟩ := List.append_of_mem hl
    unfold parseStatusPorcelainV2 parseStatusFromLines
    rw [he, List.foldl_append, List.foldl_cons]
    apply foldl_conflicts_mem
    rw [stepStatus_conflicts_of_conflict hf hcp]
    exact List.mem_append_right _ (List.mem_singleton.mpr rfl)
  · intro l hl hf hcp hx
    obtain ⟨l1, l2, he⟩ := List.append_of_mem hl
    unfold parseStatusPorcelainV2 parseStatusFromLines
    rw [he, List.foldl_append, List.foldl_cons]
    have hsc : stagedCond l = true := by
      simp [stagedCond, hf, hcp, hx]
    apply foldl_staged_mem
    rw [(stepStatus_staged_spec (l1.foldl stepStatus statusInit) l).1 hsc]
    exact List.mem_append_right _ (List.mem_singleton.mpr rfl)
  · intro l hl hf hcp hy
    obtain ⟨l1, l2, he⟩ := List.append_of_mem hl
    unfold parseStatusPorcelainV2 parseStatusFromLines
    rw [he, List.foldl_append, List.foldl_cons]
    have huc : unstagedCond l = true := by
      simp [unstagedCond, hf, hcp, hy]
    apply foldl_unstaged_mem
    rw [(stepStatus_unstaged_spec (l1.foldl stepStatus statusInit) l).1 huc]
    exact List.mem_append_right _ (List.mem_singleton.mpr rfl)
  · unfold parseStatusPorcelainV2 parseStatusFromLines
    rw [foldl_staged_len]
    simp [statusInit]
  · unfold parseStatusPorcelainV2 parseStatusFromLines
    rw [foldl_unstaged_len]
    simp [statusInit]
  · unfold parseStatusPorcelainV2 parseStatusFromLines
    rw [foldl_staged_len, foldl_unstaged_len]
    simp [statusInit]

/-- Claim C3 witness: a staged-only `M.` record lands in staged, an
unstaged-only `.M` record lands in unstaged, a partially-staged `MM`
record lands in both, a `UU` record lands in conflicts, and the section
sizes count the non-empty sides. -/
theorem status_sections_routing_witness :
    (⟨cs "only.ts", FcSection.staged, 'M', '.'⟩ : FileChange)
      ∈ (parseStatusPorcelainV2 (cs "1 M. N... 100644 100644 100644 abc def only.ts\n1 .M N... 100644 100644 100644 abc def wip.ts\n1 MM N... 100644 100644 100644 abc def both.ts\n1 UU N... 100644 100644 100644 abc def c.ts")).staged ∧
    (⟨cs "wip.ts", FcSection.unstaged, '.', 'M'⟩ : FileChange)
      ∈ (parseStatusPorcelainV2 (cs "1 M. N... 100644 100644 100644 abc def only.ts\n1 .M N... 100644 100644 100644 abc def wip.ts\n1 MM N... 100644 100644 100644 abc def both.ts\n1 UU N... 100644 100644 100644 abc def c.ts")).unstaged ∧
    (⟨cs "both.ts", FcSection.staged, 'M', 'M'⟩ : FileChange)
      ∈ (parseStatusPorcelainV2 (cs "1 M. N... 100644 100644 100644 abc def only.ts\n1 .M N... 100644 100644 100644 abc def wip.ts\n1 MM N... 100644 100644 100644 abc def both.ts\n1 UU N... 100644 100644 100644 abc def c.ts")).staged ∧
    (⟨cs "both.ts", FcSection.unstaged, 'M', 'M'⟩ : FileChange)
      ∈ (parseStatusPorcelainV2 (cs "1 M. N... 100644 100644 100644 abc def only.ts\n1 .M N... 100644 100644 100644 abc def wip.ts\n1 MM N... 100644 100644 100644 abc def both.ts\n1 UU N... 100644 100644 100644 abc def c.ts")).unstaged ∧
    (⟨cs "c.ts", FcSection.conflicts, 'U', 'U'⟩ : FileChange)
      ∈ (parseStatusPorcelainV2 (cs "1 M. N... 100644 100644 100644 abc def only.ts\n1 .M N... 100644 100644 100644 abc def wip.ts\n1 MM N... 100644 100644 100644 abc def both.ts\n1 UU N... 100644 100644 100644 abc def c.ts")).conflicts ∧
    (parseStatusPorcelainV2 (cs "1 M. N... 100644 100644 100644 abc def only.ts\n1 .M N... 100644 100644 100644 abc def wip.ts\n1 MM N... 100644 100644 100644 abc def both.ts\n1 UU N... 100644 100644 100644 abc def c.ts")).staged.length = 2 ∧
    (parseStatusPorcelainV2 (cs "1 M. N... 100644 100644 100644 abc def only.ts\n1 .M N... 100644 100644 100644 abc def wip.ts\n1 MM N... 100644 100644 100644 abc def both.ts\n1 UU N... 100644 100644 100644 abc def c.ts")).unstaged.length = 2 ∧
    (parseStatusPorcelainV2 (cs "1 M. N... 100644 100644 100644 abc def only.ts\n1 .M N... 100644 100644 100644 abc def wip.ts\n1 MM N... 100644 100644 100644 abc def both.ts\n1 UU N... 100644 100644 100644 abc def c.ts")).staged.length
      + (parseStatusPorcelainV2 (cs "1 M. N... 100644 100644 100644 abc def only.ts\n1 .M N... 100644 100644 100644 abc def wip.ts\n1 MM N... 100644 100644 100644 abc def both.ts\n1 UU N... 100644 100644 100644 abc def c.ts")).unstaged.length
      = 4 := by
  have h := status_sections_routing
    (cs "1 M. N... 100644 100644 100644 abc def only.ts\n1 .M N... 100644 100644 100644 abc def wip.ts\n1 MM N... 100644 100644 100644 abc def both.ts\n1 UU N... 100644 100644 100644 abc def c.ts")
  refine ⟨?_, ?_, ?_, ?_, ?_, ?_, ?_, ?_⟩
  · simpa using h.2.2.2.2.1
      (cs "1 M. N... 100644 100644 100644 abc def only.ts")
      (by decide) (by decide) (by decide) (by decide)
  · simpa using h.2.2.2.2.2.1
      (cs "1 .M N... 100644 100644 100644 abc def wip.ts")
      (by decide) (by decide) (by decide) (by decide)
  · simpa using h.2.2.2.2.1
      (cs "1 MM N... 100644 100644 100644 abc def both.ts")
      (by decide) (by decide) (by decide) (by decide)
  · simpa using h.2.2.2.2.2.1
      (cs "1 MM N... 100644 100644 100644 abc def both.ts")
      (by decide) (by decide) (by decide) (by decide)
  · simpa using h.2.2.2.1
      (cs "1 UU N... 100644 100644 100644 abc def c.ts")
      (by decide) (by decide) (by decide)
  · rw [h.2.2.2.2.2.2.1]
    decide
  · rw [h.2.2.2.2.2.2.2.1]
    decide
  · rw [h.2.2.2.2.2.2.2.2]
    decide

/-! ## Claim C8 -/

theorem wtPush_cases (st : List WorktreeInfo × WtAcc) :
    wtPush st = st ∨
    ∃ p h, st.2.path = some p ∧ st.2.head = some h ∧
      wtPush st = (st.1 ++ [⟨p, h, st.2.branch, st.2.detached, st.2.bare, st.2.prunable⟩],
        wtEmpty) := by
  rcases hp : st.2.path with _ | p
  · left; simp [wtPush, hp]
  · rcases hh : st.2.head with _ | h
    · left; simp [wtPush, hp, hh]
    · right
      exact ⟨p, h, rfl, rfl, by simp [wtPush, hp, hh]⟩

theorem wt_fold_origin (Pp Ph : List Char → Prop) :
    ∀ (ls : List (List Char)) (st : List WorktreeInfo × WtAcc),
    (∀ l ∈ ls, strStarts l (cs "worktree ") = true →
      Pp (trimChars (removeFirst l (cs "worktree ")))) →
    (∀ l ∈ ls, strStarts l (cs "HEAD ") = true →
      Ph (trimChars (removeFirst l (cs "HEAD ")))) →
    (∀ w ∈ st.1, Pp w.path ∧ Ph w.head) →
    (∀ p, st.2.path = some p → Pp p) →
    (∀ h, st.2.head = some h → Ph h) →
    ∀ w ∈ (wtPush (ls.foldl wtStep st)).1, Pp w.path ∧ Ph w.head := by
  intro ls
  induction ls with
  | nil =>
    intro st _ _ hws hp hh w hw
    simp only [List.foldl_nil] at hw
    rcases wtPush_cases st with hcase | ⟨p, h2, hp2, hh2, hcase⟩
    · rw [hcase] at hw
      exact hws w hw
    · rw [hcase] at hw
      rcases List.mem_append.mp hw with hw | hw
      · exact hws w hw
      · simp only [List.mem_singleton] at hw
        subst hw
        exact ⟨hp p hp2, hh h2 hh2⟩
  | cons l ls ih =>
    intro st hlp hlh hws hp hh
    have hlp2 : ∀ l2 ∈ ls, strStarts l2 (cs "worktree ") = true →
        Pp (trimChars (removeFirst l2 (cs "worktree "))) :=
      fun l2 hm => hlp l2 (List.mem_cons_of_mem l hm)
    have hlh2 : ∀ l2 ∈ ls, strStarts l2 (cs "HEAD ") = true →
        Ph (trimChars (removeFirst l2 (cs "HEAD "))) :=
      fun l2 hm => hlh l2 (List.mem_cons_of_mem l hm)
    have hstate : (∀ w ∈ (wtStep st l).1, Pp w.path ∧ Ph w.head) ∧
        (∀ p, (wtStep st l).2.path = some p → Pp p) ∧
        (∀ h2, (wtStep st l).2.head = some h2 → Ph h2) := by
      by_cases hb : (trimChars l).isEmpty = true
      · have he : wtStep st l = wtPush st := by
          simp [wtStep, hb]
        rw [he]
        rcases wtPush_cases st with hcase | ⟨p, h2, hp2, hh2, hcase⟩
        · rw [hcase]
          exact ⟨hws, hp, hh⟩
        · rw [hcase]
          refine ⟨?_, ?_, ?_⟩
          · intro w hw
            rcases List.mem_append.mp hw with hw | hw
            · exact hws w hw
            · simp only [List.mem_singleton] at hw
              subst hw
              exact ⟨hp p hp2, hh h2 hh2⟩
          · intro p2 hp3
            simp [wtEmpty] at hp3
          · intro h3 hh3
            simp [wtEmpty] at hh3
      · by_cases hc1 : strStarts l (cs "worktree ") = true
        · have he : wtStep st l =
              (st.1, { st.2 with path := some (trimChars (removeFirst l (cs "worktree "))) }) := by
            simp [wtStep, hb, hc1]
          rw [he]
          refine ⟨hws, ?_, ?_⟩
          · intro p hp2
            simp only [Option.some.injEq] at hp2
            rw [← hp2]
            exact hlp l (List.mem_cons_self l ls) hc1
          · intro h2 hh2
            exact hh h2 hh2
        · by_cases hc2 : strStarts l (cs "HEAD ") = true
          · have he : wtStep st l =
                (st.1, { st.2 with head := some (trimChars (removeFirst l (cs "HEAD "))) }) := by
              simp [wtStep, hb, hc1, hc2]
            rw [he]
            refine ⟨hws, ?_, ?_⟩
            · intro p hp2
              exact hp p hp2
            · intro h2 hh2
              simp only [Option.some.injEq] at hh2
              rw [← hh2]
              exact hlh l (List.mem_cons_self l ls) hc2
          · by_cases hc3 : strStarts l (cs "branch ") = true
            · have he : wtStep st l =
                  (st.1, { st.2 with
                    branch := some (trimChars (removeFirst l (cs "branch refs/heads/"))) }) := by
                simp [wtStep, hb, hc1, hc2, hc3]
              rw [he]
              exact ⟨hws, hp, hh⟩
            · by_cases hc4 : l == cs "detached"
              · have he : wtStep st l = (st.1, { st.2 with detached := true }) := by
                  simp [wtStep, hb, hc1, hc2, hc3, hc4]
                rw [he]
                exact ⟨hws, hp, hh⟩
              · by_cases hc5 : l == cs "bare"
                · have he : wtStep st l = (st.1, { st.2 with bare := true }) := by
                    simp [wtStep, hb, hc1, hc2, hc3, hc4, hc5]
                  rw [he]
                  exact ⟨hws, hp, hh⟩
                · by_cases hc6 : strStarts l (cs "prunable ") = true
                  · have he : wtStep st l =
                        (st.1, { st.2 with
                          prunable := some (trimChars (removeFirst l (cs "prunable "))) }) := by
                      simp [wtStep, hb, hc1, hc2, hc3, hc4, hc5, hc6]
                    rw [he]
                    exact ⟨hws, hp, hh⟩
                  · have he : wtStep st l = st := by
                      simp [wtStep, hb, hc1, hc2, hc3, hc4, hc5, hc6]
                    rw [he]
                    exact ⟨hws, hp, hh⟩
    simp only [List.foldl_cons]
    exact ih (wtStep st l) hlp2 hlh2 hstate.1 hstate.2.1 hstate.2.2

/-- Claim C8 counterexample: an input of two blocks, the first holding
only a `worktree` line and the second only a `HEAD` line, has no complete
block at all, yet `parseWorktrees` emits one record — the accumulator is
not reset when an incomplete block is flushed, so incomplete blocks merge
instead of being silently dropped. -/
theorem parseWorktrees_incomplete_counterexample :
    ((wtBlocks (cs "worktree /a\n\nHEAD sha")).filter blockComplete).length = 0 ∧
    (parseWorktrees (cs "worktree /a\n\nHEAD sha")).length = 1 ∧
    parseWorktrees (cs "worktree /a\n\nHEAD sha")
      = [⟨cs "/a", cs "sha", none, false, false, none⟩] := by
  refine ⟨by decide, by decide, by decide⟩

/-- C8 (amended): `parseWorktrees` emits a record only once both a
`worktree <path>` line and a `HEAD <sha>` line have been accumulated —
every emitted record's path and head stem from such lines of the input
(a block missing one is not dropped but carries its fields into the
following block); for the two complete blocks, one with
`branch refs/heads/main` and one with `detached`, it returns exactly two
records, the first with branch `"main"` and `detached = false`, the
second detached with no branch. -/
theorem parseWorktrees_emission :
    (∀ (output : List Char) (w : WorktreeInfo), w ∈ parseWorktrees output →
      (∃ l ∈ splitLines output, strStarts l (cs "worktree ") = true ∧
        w.path = trimChars (removeFirst l (cs "worktree "))) ∧
      (∃ l ∈ splitLines output, strStarts l (cs "HEAD ") = true ∧
        w.head = trimChars (removeFirst l (cs "HEAD ")))) ∧
    parseWorktrees
      (cs "worktree /w1\nHEAD aaa\nbranch refs/heads/main\n\nworktree /w2\nHEAD bbb\ndetached\n")
      = [⟨cs "/w1", cs "aaa", some (cs "main"), false, false, none⟩,
         ⟨cs "/w2", cs "bbb", none, true, false, none⟩] := by
  constructor
  · intro output w hw
    have h := wt_fold_origin
      (fun p => ∃ l ∈ splitLines output, strStarts l (cs "worktree ") = true ∧
        p = trimChars (removeFirst l (cs "worktree ")))
      (fun hd => ∃ l ∈ splitLines output, strStarts l (cs "HEAD ") = true ∧
        hd = trimChars (removeFirst l (cs "HEAD ")))
      (splitLines output) ([], wtEmpty)
      (fun l hm hs => ⟨l, hm, hs, rfl⟩)
      (fun l hm hs => ⟨l, hm, hs, rfl⟩)
      (by intro w2 hw2; simp at hw2)
      (by intro p hp; simp [wtEmpty] at hp)
      (by intro h2 hh2; simp [wtEmpty] at hh2)
      w hw
    exact h
  · decide

/-- Claim C8 witness: the first record of the two-block round trip indeed
draws its path and head from `worktree`/`HEAD` lines of the input. -/
theorem parseWorktrees_emission_witness :
    (∃ l ∈ splitLines
        (cs "worktree /w1\nHEAD aaa\nbranch refs/heads/main\n\nworktree /w2\nHEAD bbb\ndetached\n"),
      strStarts l (cs "worktree ") = true ∧
      (⟨cs "/w1", cs "aaa", some (cs "main"), false, false, none⟩ : WorktreeInfo).path
        = trimChars (removeFirst l (cs "worktree "))) ∧
    (∃ l ∈ splitLines
        (cs "worktree /w1\nHEAD aaa\nbranch refs/heads/main\n\nworktree /w2\nHEAD bbb\ndetached\n"),
      strStarts l (cs "HEAD ") = true ∧
      (⟨cs "/w1", cs "aaa", some (cs "main"), false, false, none⟩ : WorktreeInfo).head
        = trimChars (removeFirst l (cs "HEAD "))) := by
  have h := parseWorktrees_emission.1
    (cs "worktree /w1\nHEAD aaa\nbranch refs/heads/main\n\nworktree /w2\nHEAD bbb\ndetached\n")
    ⟨cs "/w1", cs "aaa", some (cs "main"), false, false, none⟩
    (by rw [parseWorktrees_emission.2]; exact List.mem_cons_self _ _)
  exact h

end GitCC
